import Mathlib

/-!
Shallow embedding of src/vs/editor/contrib/inlayHints/inlayHints.ts.

The embedding models the external collaborators through narrow interfaces:
the text model (position validation, word lookup, line tokens), the provider
registry (an ordered list of providers), the cancellation token (a Bool
readout at each check point), and the unexpected-error sink (an accumulated
list of reported errors).  Machine integers do not occur; all positions and
offsets are Nat.  Fallible provider calls are Except values; nullish
JavaScript fields are Option values.  The cooperative single-threaded
concurrency of resolve is modelled as a small-step machine further below.
-/

namespace InlayHints

/-- A 1-based document position, as in vs/editor/common/core/position. -/
structure Position where
  lineNumber : Nat
  column : Nat
deriving DecidableEq, Repr

/-- Mirrors Position.isBefore: strict document order test. -/
def Position.isBefore (a b : Position) : Bool :=
  a.lineNumber < b.lineNumber || (a.lineNumber == b.lineNumber && a.column < b.column)

/-- Mirrors the static Position.compare: difference of line numbers, and of
columns when the line numbers agree. -/
def Position.compare (a b : Position) : Int :=
  if a.lineNumber = b.lineNumber then (a.column : Int) - (b.column : Int)
  else (a.lineNumber : Int) - (b.lineNumber : Int)

/-- Spec-side non-decreasing order on positions, used to state sortedness. -/
def Position.posLe (a b : Position) : Prop :=
  a.lineNumber < b.lineNumber ∨ (a.lineNumber = b.lineNumber ∧ a.column ≤ b.column)

instance : DecidablePred fun p : Position × Position => Position.posLe p.1 p.2 := by
  intro p
  unfold Position.posLe
  infer_instance

/-- A document range, as in vs/editor/common/core/range. -/
structure Range where
  startLineNumber : Nat
  startColumn : Nat
  endLineNumber : Nat
  endColumn : Nat
deriving DecidableEq, Repr

/-- Mirrors the Range constructor, which swaps the two end points when they
are given in reverse document order. -/
def Range.make (slc sc elc ec : Nat) : Range :=
  if slc > elc ∨ (slc = elc ∧ sc > ec) then
    { startLineNumber := elc, startColumn := ec, endLineNumber := slc, endColumn := sc }
  else
    { startLineNumber := slc, startColumn := sc, endLineNumber := elc, endColumn := ec }

/-- Mirrors Range.getStartPosition. -/
def Range.getStartPosition (r : Range) : Position :=
  { lineNumber := r.startLineNumber, column := r.startColumn }

/-- Mirrors Range.getEndPosition. -/
def Range.getEndPosition (r : Range) : Position :=
  { lineNumber := r.endLineNumber, column := r.endColumn }

/-- Mirrors Range.fromPositions. -/
def Range.fromPositions (s e : Position) : Range :=
  Range.make s.lineNumber s.column e.lineNumber e.column

/-- An inlay hint as this module consumes it: an anchor position, a label and
an optional tooltip.  Option models a nullish field. -/
structure InlayHint where
  position : Position
  label : String
  tooltip : Option String
deriving DecidableEq, Repr

/-- Result of ITextModel.getWordAtPosition: 1-based start and end columns. -/
structure WordAtPosition where
  startColumn : Nat
  endColumn : Nat
deriving DecidableEq, Repr

/-- The text-model collaborator, reduced to the three capabilities the module
uses.  Line tokens are encoded as the list of token end offsets of the line,
exactly the encoding of LineTokens: token i spans [ends get (i-1), ends get i)
with an implicit initial 0.  tokenizeIfCheap only warms the tokenizer and has
no observable effect on this read-only view. -/
structure TextModel where
  validatePosition : Position → Position
  getWordAtPosition : Position → Option WordAtPosition
  lineTokenEnds : Nat → List Nat

/-- Mirrors LineTokens.findTokenIndexAtOffset: index of the token whose span
contains the offset, clamped to the last token. -/
def findTokenIndexAtOffset (ends : List Nat) (offset : Nat) : Nat :=
  match ends.findIdx? (fun e => decide (offset < e)) with
  | some i => i
  | none => ends.length - 1

/-- Mirrors LineTokens.getStartOffset. -/
def getStartOffset (ends : List Nat) (i : Nat) : Nat :=
  if i = 0 then 0 else ends.getD (i - 1) 0

/-- Mirrors LineTokens.getEndOffset. -/
def getEndOffset (ends : List Nat) (i : Nat) : Nat :=
  ends.getD i 0

/-- Mirrors LineTokens.getCount. -/
def getCount (ends : List Nat) : Nat :=
  ends.length

/-- Mirrors InlayHintsFragments._getRangeAtPosition: prefer the word at the
position; otherwise fall back to the token containing the offset, shifting
away from a single-character token to a neighbour under the guards written
in the source (idx greater than 1 for the leading shift, idx below count - 1
for the trailing shift). -/
def getRangeAtPosition (model : TextModel) (position : Position) : Range :=
  let line := position.lineNumber
  match model.getWordAtPosition position with
  | some word => Range.make line word.startColumn line word.endColumn
  | none =>
    let tokens := model.lineTokenEnds line
    let offset := position.column - 1
    let idx := findTokenIndexAtOffset tokens offset
    let tokStart := getStartOffset tokens idx
    let tokEnd := getEndOffset tokens idx
    let shifted : Nat × Nat :=
      if tokEnd - tokStart = 1 then
        if tokStart = offset ∧ idx > 1 then
          (getStartOffset tokens (idx - 1), getEndOffset tokens (idx - 1))
        else if tokEnd = offset ∧ idx < getCount tokens - 1 then
          (getStartOffset tokens (idx + 1), getEndOffset tokens (idx + 1))
        else (tokStart, tokEnd)
      else (tokStart, tokEnd)
    Range.make line (shifted.1 + 1) line (shifted.2 + 1)

/-- The side of the anchor a hint hugs. -/
inductive Direction where
  | before
  | after
deriving DecidableEq, Repr

/-- Mirrors InlayHintAnchor. -/
structure InlayHintAnchor where
  range : Range
  direction : Direction
deriving DecidableEq, Repr

/-- Mirrors the per-hint anchor computation in the InlayHintsFragments
constructor: validate the hint position, compute the word or token range, and
derive the attachment range and side. -/
def computeAnchor (model : TextModel) (hint : InlayHint) : InlayHintAnchor :=
  let position := model.validatePosition hint.position
  let wordRange := getRangeAtPosition model position
  if wordRange.getStartPosition.isBefore position then
    { range := Range.fromPositions wordRange.getStartPosition position
      direction := Direction.after }
  else
    { range := Range.fromPositions position wordRange.getEndPosition
      direction := Direction.before }

/-- The provider collaborator, reduced to the capabilities the fragment-set
construction consumes: a guarded provide call (Except models a rejection,
the inner Option models a nullish result) and the presence of the
onDidChangeInlayHints capability. -/
structure InlayHintsProvider where
  provideInlayHints : Range → Except String (Option (List InlayHint))
  hasChangeEvent : Bool

/-- Mirrors InlayHintItem as far as construction is concerned: the hint, its
anchor and a reference to the originating provider, modelled by the index of
the provider in the registry order. -/
structure InlayHintItem where
  hint : InlayHint
  anchor : InlayHintAnchor
  providerIndex : Nat
deriving DecidableEq, Repr

/-- Comparator used by the final sort, mirrors the callback
Position.compare on the hint positions of two items. -/
def InlayHintItem.le (a b : InlayHintItem) : Bool :=
  decide (Position.compare a.hint.position b.hint.position ≤ 0)

/-- Mirrors the collection loop of InlayHintsFragments.create: the registry
order is reversed, then every provider is asked for every range; each call is
individually guarded, a rejection is reported to the error sink and skipped,
a nullish or empty result contributes no data entry.  The deterministic
accumulation order models the FIFO microtask order in which the guarded
callbacks settle for providers answering synchronously. -/
def collectData (providers : List InlayHintsProvider) (ranges : List Range) :
    List (List InlayHint × Nat) × List String :=
  (providers.enum.reverse).foldl
    (fun acc ip =>
      ranges.foldl
        (fun acc r =>
          match ip.2.provideInlayHints r with
          | Except.ok (some hints) =>
              if hints.length ≠ 0 then (acc.1 ++ [(hints, ip.1)], acc.2) else acc
          | Except.ok none => acc
          | Except.error err => (acc.1, acc.2 ++ [err]))
        acc)
    ([], [])

/-- Mirrors the item-building loop of the InlayHintsFragments constructor:
for every collected data entry, every raw hint becomes an item carrying its
computed anchor and its provider. -/
def buildItems (model : TextModel) (data : List (List InlayHint × Nat)) :
    List InlayHintItem :=
  data.flatMap (fun entry =>
    entry.1.map (fun hint =>
      { hint := hint, anchor := computeAnchor model hint, providerIndex := entry.2 }))

/-- Observable state of a constructed fragment set: the sorted items, the
errors reported to the sink during collection, and the provider change
subscriptions installed by the constructor (one per data entry whose
provider exposes the change capability, in data order). -/
structure InlayHintsFragments where
  items : List InlayHintItem
  errors : List String
  subscriptions : List Nat

/-- Mirrors InlayHintsFragments.create followed by the private constructor:
collect, build the items, install the change subscriptions, and stable-sort
the items by hint position.  List.mergeSort models the stable
Array.prototype.sort of the source. -/
def InlayHintsFragments.create (model : TextModel) (providers : List InlayHintsProvider)
    (ranges : List Range) : InlayHintsFragments :=
  let dataAndErrors := collectData providers ranges
  { items := (buildItems model dataAndErrors.1).mergeSort InlayHintItem.le
    errors := dataAndErrors.2
    subscriptions := dataAndErrors.1.filterMap (fun entry =>
      match providers[entry.2]? with
      | some prov => if prov.hasChangeEvent then some entry.2 else none
      | none => none) }

/-- Mutable state of one InlayHintItem as far as resolution is concerned: the
hint fields that _doResolve may upgrade, the _isResolved flag, and the list of
errors reported so far to the unexpected-error sink. -/
structure ResolveCore where
  hint : InlayHint
  isResolved : Bool
  errors : List String
deriving DecidableEq, Repr

/-- Mirrors InlayHintItem._doResolve: on a successful provider answer the
tooltip and label are taken from the replacement when it is non-nullish
(the nullish-coalescing operator of the source), and the resolved flag is set;
on a rejection the error goes to the sink and the flag is reset to false.
The function is total: no outcome is ever thrown back to the caller. -/
def doResolve (result : Except String (Option InlayHint)) (s : ResolveCore) : ResolveCore :=
  match result with
  | Except.ok newHint =>
      { hint :=
          { position := s.hint.position
            label := (newHint.map InlayHint.label).getD s.hint.label
            tooltip := (newHint.bind InlayHint.tooltip).orElse (fun _ => s.hint.tooltip) }
        isResolved := true
        errors := s.errors }
  | Except.error err =>
      { hint := s.hint, isResolved := false, errors := s.errors ++ [err] }

/-- Program counter of one caller of InlayHintItem.resolve, one constructor
per suspension point of the source method. -/
inductive CallerPC where
  | entry
  | waitingShared (op : Nat)
  | waitingOwn (op : Nat)
  | done
deriving DecidableEq, Repr

/-- Decision taken by the synchronous prefix of InlayHintItem.resolve. -/
inductive EntryAction where
  | finish
  | waitFor (op : Nat)
  | startNew
deriving DecidableEq, Repr

/-- Mirrors the branch structure at the top of InlayHintItem.resolve: no
resolver capability finishes immediately; an in-flight handle is awaited; an
unresolved item with no in-flight handle starts a new operation; a resolved
item with no handle awaits undefined and finishes. -/
def entryAction (hasResolver : Bool) (currentResolve : Option Nat) (isResolved : Bool) :
    EntryAction :=
  if !hasResolver then EntryAction.finish
  else
    match currentResolve with
    | some o => EntryAction.waitFor o
    | none => if !isResolved then EntryAction.startNew else EntryAction.finish

/-- One asynchronous _doResolve operation: the provider answer it will apply,
and whether the promise has settled. -/
structure OpRecord where
  result : Except String (Option InlayHint)
  settled : Bool
deriving Repr

/-- Global state of the cooperative machine running several concurrent
callers of resolve against one item: the shared mutable core, the
_currentResolve field, the operations started so far, the number of provider
resolve invocations, and one program counter per caller. -/
structure MachineState where
  core : ResolveCore
  currentResolve : Option Nat
  ops : List OpRecord
  invocations : Nat
  callers : List CallerPC
deriving Repr

/-- Effect of running caller i from the entry point to its next suspension
point.  Starting a new operation invokes the provider synchronously (the
producer function gives the answer of the k-th invocation) and installs the
in-flight handle; the other branches only move the program counter. -/
def applyEntry (producer : Nat → Except String (Option InlayHint)) (hasResolver : Bool)
    (i : Nat) (s : MachineState) : MachineState :=
  match entryAction hasResolver s.currentResolve s.core.isResolved with
  | EntryAction.finish => { s with callers := s.callers.set i CallerPC.done }
  | EntryAction.waitFor o => { s with callers := s.callers.set i (CallerPC.waitingShared o) }
  | EntryAction.startNew =>
      { s with
        ops := s.ops ++ [{ result := producer s.invocations, settled := false }]
        invocations := s.invocations + 1
        currentResolve := some s.ops.length
        callers := s.callers.set i (CallerPC.waitingOwn s.ops.length) }

/-- Settlement of operation o: the _doResolve body applies its effect to the
shared core and the finally handler clears the in-flight handle of the item
that started the operation. -/
def applySettle (o : Nat) (s : MachineState) : MachineState :=
  match s.ops[o]? with
  | some r =>
      { s with
        core := doResolve r.result s.core
        currentResolve := none
        ops := s.ops.set o { r with settled := true } }
  | none => s

/-- Small-step transition relation of the machine: a caller at a suspension
point may run to its next suspension point (a wait on a settled promise may
resume; the token readout after a shared wait is nondeterministic, covered by
the two resumeShared constructors), and a pending operation may settle. -/
inductive Step (producer : Nat → Except String (Option InlayHint)) (hasResolver : Bool) :
    MachineState → MachineState → Prop where
  | entry (i : Nat) (s : MachineState) (h : s.callers[i]? = some CallerPC.entry) :
      Step producer hasResolver s (applyEntry producer hasResolver i s)
  | resumeSharedCancelled (i o : Nat) (s : MachineState)
      (h : s.callers[i]? = some (CallerPC.waitingShared o))
      (hset : (s.ops[o]?).map OpRecord.settled = some true) :
      Step producer hasResolver s { s with callers := s.callers.set i CallerPC.done }
  | resumeSharedRetry (i o : Nat) (s : MachineState)
      (h : s.callers[i]? = some (CallerPC.waitingShared o))
      (hset : (s.ops[o]?).map OpRecord.settled = some true) :
      Step producer hasResolver s { s with callers := s.callers.set i CallerPC.entry }
  | resumeOwn (i o : Nat) (s : MachineState)
      (h : s.callers[i]? = some (CallerPC.waitingOwn o))
      (hset : (s.ops[o]?).map OpRecord.settled = some true) :
      Step producer hasResolver s { s with callers := s.callers.set i CallerPC.done }
  | settle (o : Nat) (s : MachineState)
      (hpend : (s.ops[o]?).map OpRecord.settled = some false) :
      Step producer hasResolver s (applySettle o s)

/-- Initial machine state: an unresolved item, no in-flight handle, no
operations, and n callers about to enter resolve. -/
def initState (hint : InlayHint) (n : Nat) : MachineState :=
  { core := { hint := hint, isResolved := false, errors := [] }
    currentResolve := none
    ops := []
    invocations := 0
    callers := List.replicate n CallerPC.entry }

/-- Reflexive-transitive closure of Step from a given initial state. -/
inductive Reachable (producer : Nat → Except String (Option InlayHint)) (hasResolver : Bool)
    (init : MachineState) : MachineState → Prop where
  | refl : Reachable producer hasResolver init init
  | tail {s t : MachineState} :
      Reachable producer hasResolver init s → Step producer hasResolver s t →
      Reachable producer hasResolver init t

/-- The per-item fields InlayHintItem.with copies by value: the resolution
flag and the in-flight handle. -/
structure ItemSlots where
  isResolved : Bool
  currentResolve : Option Nat
deriving DecidableEq, Repr

/-- Mirrors InlayHintItem.with as far as the resolution state is concerned:
the copy receives the current values of both fields. -/
def withDelta (orig : ItemSlots) : ItemSlots :=
  { isResolved := orig.isResolved, currentResolve := orig.currentResolve }

/-- Settlement of the operation started by the original item, seen by the two
items: the finally closure and the _doResolve body both captured the original
item, so only the original has its handle cleared and its flag updated; the
fields of the copy are untouched. -/
def settleOriginal (_orig copy : ItemSlots) (resolvedNow : Bool) : ItemSlots × ItemSlots :=
  ({ isResolved := resolvedNow, currentResolve := none }, copy)

/-- State of one deterministic resolve call running against the copy after
the shared operation has settled: the field slots of the copy, the program
counter, and the number of provider invocations it has triggered. -/
structure CopyRun where
  slots : ItemSlots
  pc : CallerPC
  invocations : Nat
deriving DecidableEq, Repr

/-- One step of resolve on the copy.  Every wait target is the already
settled operation 0, so a shared wait resumes immediately; the token is read
at resumption time t. -/
def copyStep (token : Nat → Bool) (t : Nat) (s : CopyRun) : CopyRun :=
  match s.pc with
  | CallerPC.entry =>
      match entryAction true s.slots.currentResolve s.slots.isResolved with
      | EntryAction.finish => { s with pc := CallerPC.done }
      | EntryAction.waitFor o => { s with pc := CallerPC.waitingShared o }
      | EntryAction.startNew =>
          { s with pc := CallerPC.waitingOwn 0, invocations := s.invocations + 1 }
  | CallerPC.waitingShared _ =>
      if token t then { s with pc := CallerPC.done } else { s with pc := CallerPC.entry }
  | CallerPC.waitingOwn _ => { s with pc := CallerPC.done }
  | CallerPC.done => s

/-- The slots of an item whose resolution is in flight as operation 0. -/
def origInFlight : ItemSlots :=
  { isResolved := false, currentResolve := some 0 }

/-- Run of resolve on the copy, starting from the slots the copy holds after
with() was taken during flight and the shared operation settled. -/
def copyRun (token : Nat → Bool) : Nat → CopyRun
  | 0 =>
      { slots := (settleOriginal origInFlight (withDelta origInFlight) true).2
        pc := CallerPC.entry
        invocations := 0 }
  | n + 1 => copyStep token n (copyRun token n)

/-- Observable state of the change-signal plumbing of one fragment set: the
provider indices with an active forwarded subscription, and how often the
merged emitter has been invoked. -/
structure SignalState where
  subscriptions : List Nat
  mergedFires : Nat
deriving DecidableEq, Repr

/-- Firing the underlying change signal of provider p: every active forwarded
subscription installed for p invokes the merged emitter once. -/
def SignalState.fireProviderSignal (s : SignalState) (p : Nat) : SignalState :=
  { s with mergedFires := s.mergedFires + s.subscriptions.count p }

/-- Mirrors InlayHintsFragments.dispose: the DisposableStore tears down every
forwarded subscription and the merged emitter is disposed. -/
def SignalState.dispose (s : SignalState) : SignalState :=
  { s with subscriptions := [] }

/-- Spec-side characterisation for the collection claim: the concatenation,
in query order, of the hint lists of all successful non-nullish provider
calls.  This definition follows the words of the spec and is compared with
the source-derived construction. -/
def specCollectedHints (providers : List InlayHintsProvider) (ranges : List Range) :
    List InlayHint :=
  (providers.enum.reverse).flatMap (fun ip =>
    ranges.flatMap (fun r =>
      match ip.2.provideInlayHints r with
      | Except.ok (some hints) => hints
      | Except.ok none => []
      | Except.error _ => []))

/-- Spec-side characterisation of the errors reported to the sink during
collection: one entry per rejected provider call, in query order. -/
def specCollectedErrors (providers : List InlayHintsProvider) (ranges : List Range) :
    List String :=
  (providers.enum.reverse).flatMap (fun ip =>
    ranges.flatMap (fun r =>
      match ip.2.provideInlayHints r with
      | Except.ok _ => []
      | Except.error err => [err]))

/-- A position is never strictly before itself. -/
theorem Position.isBefore_irrefl (p : Position) : p.isBefore p = false := by
  simp [Position.isBefore]

/-- Token line of the C2 scenario: tokens foo, dot, space-bar with end
offsets 3, 4 and 8; no word is found at the queried position, so placement
falls back to the token heuristic. -/
def c2Model : TextModel :=
  { validatePosition := id
    getWordAtPosition := fun _ => none
    lineTokenEnds := fun _ => [3, 4, 8] }

/-- C2: in the token fallback, the claim demands that a single-character
token at the start edge with a preceding token available resolves to the
preceding token. The code guards the leading shift with idx greater than 1,
so at token index 1 (offset 3, column 4, the dot between foo and the bar
token) the preceding token foo exists but no shift happens: the code returns
the one-character span of the dot itself (columns 4 to 5) instead of the foo
span (columns 1 to 4).  This theorem evaluates the embedded code at that
failing input. -/
theorem c2_single_char_token_start_edge_eval :
    findTokenIndexAtOffset [3, 4, 8] 3 = 1 ∧
    getStartOffset [3, 4, 8] 1 = 3 ∧
    getEndOffset [3, 4, 8] 1 = 4 ∧
    getRangeAtPosition c2Model { lineNumber := 1, column := 4 } =
      { startLineNumber := 1, startColumn := 4, endLineNumber := 1, endColumn := 5 } ∧
    getRangeAtPosition c2Model { lineNumber := 1, column := 4 } ≠
      { startLineNumber := 1, startColumn := 1, endLineNumber := 1, endColumn := 4 } := by
  decide

/-- C3: the anchor side is after exactly when the computed span starts
strictly before the validated target position, in which case the anchor range
runs from the span start to the target; otherwise the side is before and the
range runs from the target to the span end; a span degenerate at the target
yields before. -/
theorem anchor_direction_matches_span_start (model : TextModel) (hint : InlayHint)
    (position : Position) (span : Range)
    (hpos : position = model.validatePosition hint.position)
    (hspan : span = getRangeAtPosition model position) :
    ((computeAnchor model hint).direction = Direction.after ↔
        span.getStartPosition.isBefore position = true) ∧
    (span.getStartPosition.isBefore position = true →
        (computeAnchor model hint).range = Range.fromPositions span.getStartPosition position) ∧
    (span.getStartPosition.isBefore position = false →
        (computeAnchor model hint).direction = Direction.before ∧
        (computeAnchor model hint).range = Range.fromPositions position span.getEndPosition) ∧
    (span.getStartPosition = span.getEndPosition → span.getStartPosition = position →
        (computeAnchor model hint).direction = Direction.before) := by
  subst hpos
  subst hspan
  cases hcond :
      (getRangeAtPosition model (model.validatePosition hint.position)).getStartPosition.isBefore
        (model.validatePosition hint.position) with
  | true =>
    refine ⟨?_, ?_, ?_, ?_⟩
    · simp [computeAnchor, hcond]
    · intro _
      simp [computeAnchor, hcond]
    · intro hf
      simp at hf
    · intro _ htarget
      rw [htarget] at hcond
      rw [Position.isBefore_irrefl] at hcond
      simp at hcond
  | false =>
    refine ⟨?_, ?_, ?_, ?_⟩
    · simp [computeAnchor, hcond]
    · intro ht
      simp at ht
    · intro _
      constructor <;> simp [computeAnchor, hcond]
    · intro _ _
      simp [computeAnchor, hcond]

/-- Concrete model for the C3 witness: the word at every position spans
columns 1 to 4. -/
def c3Model : TextModel :=
  { validatePosition := id
    getWordAtPosition := fun _ => some { startColumn := 1, endColumn := 4 }
    lineTokenEnds := fun _ => [] }

/-- Hint for the C3 witness, anchored inside the word. -/
def c3Hint : InlayHint :=
  { position := { lineNumber := 1, column := 3 }, label := "x", tooltip := none }

/-- Witness for the C3 theorem at a concrete model and hint. -/
theorem c3_witness :
    ((computeAnchor c3Model c3Hint).direction = Direction.after ↔
        (Range.make 1 1 1 4).getStartPosition.isBefore { lineNumber := 1, column := 3 } = true) ∧
    ((Range.make 1 1 1 4).getStartPosition.isBefore { lineNumber := 1, column := 3 } = true →
        (computeAnchor c3Model c3Hint).range =
          Range.fromPositions (Range.make 1 1 1 4).getStartPosition { lineNumber := 1, column := 3 }) ∧
    ((Range.make 1 1 1 4).getStartPosition.isBefore { lineNumber := 1, column := 3 } = false →
        (computeAnchor c3Model c3Hint).direction = Direction.before ∧
        (computeAnchor c3Model c3Hint).range =
          Range.fromPositions { lineNumber := 1, column := 3 } (Range.make 1 1 1 4).getEndPosition) ∧
    ((Range.make 1 1 1 4).getStartPosition = (Range.make 1 1 1 4).getEndPosition →
        (Range.make 1 1 1 4).getStartPosition = { lineNumber := 1, column := 3 } →
        (computeAnchor c3Model c3Hint).direction = Direction.before) :=
  anchor_direction_matches_span_start c3Model c3Hint
    { lineNumber := 1, column := 3 } (Range.make 1 1 1 4) (by decide) (by decide)

/-- C8: whenever the document reports a word at the position, the placement
algorithm returns exactly the word span, and the result does not depend on
the tokenization of the line. -/
theorem word_range_priority (validate : Position → Position)
    (wordFn : Position → Option WordAtPosition) (tokensA tokensB : Nat → List Nat)
    (position : Position) (w : WordAtPosition) (h : wordFn position = some w) :
    getRangeAtPosition
        { validatePosition := validate, getWordAtPosition := wordFn, lineTokenEnds := tokensA }
        position =
      Range.make position.lineNumber w.startColumn position.lineNumber w.endColumn ∧
    getRangeAtPosition
        { validatePosition := validate, getWordAtPosition := wordFn, lineTokenEnds := tokensA }
        position =
      getRangeAtPosition
        { validatePosition := validate, getWordAtPosition := wordFn, lineTokenEnds := tokensB }
        position := by
  constructor <;> simp [getRangeAtPosition, h]

/-- Witness for the C8 theorem: a word spanning columns 2 to 5 wins over two
different tokenizations whose token boundaries disagree with the word
boundary at the same position. -/
theorem c8_witness :
    getRangeAtPosition
        { validatePosition := id
          getWordAtPosition := fun _ => some { startColumn := 2, endColumn := 5 }
          lineTokenEnds := fun _ => [1, 8] }
        { lineNumber := 1, column := 3 } =
      Range.make 1 2 1 5 ∧
    getRangeAtPosition
        { validatePosition := id
          getWordAtPosition := fun _ => some { startColumn := 2, endColumn := 5 }
          lineTokenEnds := fun _ => [1, 8] }
        { lineNumber := 1, column := 3 } =
      getRangeAtPosition
        { validatePosition := id
          getWordAtPosition := fun _ => some { startColumn := 2, endColumn := 5 }
          lineTokenEnds := fun _ => [3, 4, 8] }
        { lineNumber := 1, column := 3 } :=
  word_range_priority id (fun _ => some { startColumn := 2, endColumn := 5 })
    (fun _ => [1, 8]) (fun _ => [3, 4, 8]) { lineNumber := 1, column := 3 }
    { startColumn := 2, endColumn := 5 } rfl

/-- Core state used by the C4 counterexample: the hint already carries a
tooltip. -/
def c4Core : ResolveCore :=
  { hint := { position := { lineNumber := 1, column := 1 }, label := "lbl", tooltip := some "old" }
    isResolved := false
    errors := [] }

/-- Replacement hint of the C4 counterexample: its tooltip is the empty
string, which is not nullish. -/
def c4Replacement : InlayHint :=
  { position := { lineNumber := 1, column := 1 }, label := "lbl2", tooltip := some "" }

/-- C4 counterexample: the claim says an empty replacement leaves the
existing tooltip unchanged, but the nullish-coalescing update overwrites the
tooltip with the empty string, because only null and undefined keep the old
value. -/
theorem c4_empty_tooltip_overwrites :
    c4Replacement.tooltip = some "" ∧
    (doResolve (Except.ok (some c4Replacement)) c4Core).hint.tooltip = some "" ∧
    (doResolve (Except.ok (some c4Replacement)) c4Core).hint.tooltip ≠ c4Core.hint.tooltip := by
  refine ⟨rfl, rfl, ?_⟩
  decide

/-- C4 amended: on success the resolved flag becomes true and the tooltip and
label are overwritten exactly when the producer returned a non-nullish
replacement; an absent (null or undefined) replacement keeps the existing
value, while any present value, the empty string included, overwrites. -/
theorem resolve_success_overwrites_nonnullish (s : ResolveCore) (newHint : Option InlayHint) :
    (doResolve (Except.ok newHint) s).isResolved = true ∧
    (doResolve (Except.ok newHint) s).errors = s.errors ∧
    (doResolve (Except.ok newHint) s).hint.position = s.hint.position ∧
    (newHint.bind InlayHint.tooltip = none →
        (doResolve (Except.ok newHint) s).hint.tooltip = s.hint.tooltip) ∧
    (∀ v, newHint.bind InlayHint.tooltip = some v →
        (doResolve (Except.ok newHint) s).hint.tooltip = some v) ∧
    (newHint = none → (doResolve (Except.ok newHint) s).hint.label = s.hint.label) ∧
    (∀ nh, newHint = some nh → (doResolve (Except.ok newHint) s).hint.label = nh.label) := by
  refine ⟨rfl, rfl, rfl, ?_, ?_, ?_, ?_⟩
  · intro hnone
    simp [doResolve, hnone, Option.orElse]
  · intro v hsome
    simp [doResolve, hsome, Option.orElse]
  · intro hnone
    subst hnone
    simp [doResolve]
  · intro nh hsome
    subst hsome
    simp [doResolve]

/-- Witness for the C4 amended theorem: an absent replacement keeps the
existing tooltip and the flag becomes true. -/
theorem c4_witness :
    (doResolve (Except.ok none) c4Core).isResolved = true ∧
    (doResolve (Except.ok none) c4Core).hint.tooltip = c4Core.hint.tooltip :=
  ⟨(resolve_success_overwrites_nonnullish c4Core none).1,
    (resolve_success_overwrites_nonnullish c4Core none).2.2.2.1 rfl⟩

/-- C5: a failed producer resolve call is reported to the unexpected-error
sink (the error is appended, never thrown: doResolve is a total function),
the resolved flag is reset to false, the hint fields are left unchanged, and
from the settled state (no in-flight handle, flag false) a caller at the
entry of resolve performs a legal step that starts a fresh operation,
invoking the producer again. -/
theorem resolve_failure_reported_and_retried (s : ResolveCore) (e : String)
    (producer : Nat → Except String (Option InlayHint)) (m : MachineState) (i : Nat)
    (hcur : m.currentResolve = none) (hres : m.core.isResolved = false)
    (hpc : m.callers[i]? = some CallerPC.entry) :
    (doResolve (Except.error e) s).hint = s.hint ∧
    (doResolve (Except.error e) s).isResolved = false ∧
    (doResolve (Except.error e) s).errors = s.errors ++ [e] ∧
    Step producer true m (applyEntry producer true i m) ∧
    (applyEntry producer true i m).invocations = m.invocations + 1 ∧
    (applyEntry producer true i m).ops =
      m.ops ++ [{ result := producer m.invocations, settled := false }] := by
  refine ⟨rfl, rfl, rfl, Step.entry i m hpc, ?_, ?_⟩ <;>
    simp [applyEntry, entryAction, hcur, hres]

/-- Hint used by the machine witnesses. -/
def wHint : InlayHint :=
  { position := { lineNumber := 1, column := 1 }, label := "w", tooltip := none }

/-- Witness for the C5 theorem: a concrete failure leaves the hint unchanged,
resets the flag, appends the error, and the subsequent entry step invokes the
producer once more. -/
theorem c5_witness :
    (doResolve (Except.error "boom") c4Core).hint = c4Core.hint ∧
    (doResolve (Except.error "boom") c4Core).isResolved = false ∧
    (doResolve (Except.error "boom") c4Core).errors = c4Core.errors ++ ["boom"] ∧
    Step (fun _ => Except.error "boom") true (initState wHint 1)
      (applyEntry (fun _ => Except.error "boom") true 0 (initState wHint 1)) ∧
    (applyEntry (fun _ => Except.error "boom") true 0 (initState wHint 1)).invocations =
      (initState wHint 1).invocations + 1 ∧
    (applyEntry (fun _ => Except.error "boom") true 0 (initState wHint 1)).ops =
      (initState wHint 1).ops ++
        [{ result := (fun _ => Except.error "boom") (initState wHint 1).invocations,
           settled := false }] :=
  resolve_failure_reported_and_retried c4Core "boom" (fun _ => Except.error "boom")
    (initState wHint 1) 0 rfl rfl rfl

/-- The item comparator is transitive. -/
theorem InlayHintItem.le_trans (a b c : InlayHintItem) :
    InlayHintItem.le a b = true → InlayHintItem.le b c = true → InlayHintItem.le a c = true := by
  simp only [InlayHintItem.le, decide_eq_true_eq, Position.compare]
  split_ifs <;> omega

/-- The item comparator is total. -/
theorem InlayHintItem.le_total (a b : InlayHintItem) :
    (InlayHintItem.le a b || InlayHintItem.le b a) = true := by
  simp only [InlayHintItem.le, Bool.or_eq_true, decide_eq_true_eq, Position.compare]
  split_ifs <;> omega

/-- The item comparator agrees with the spec-side non-decreasing position
order. -/
theorem InlayHintItem.le_iff_posLe (a b : InlayHintItem) :
    InlayHintItem.le a b = true ↔ Position.posLe a.hint.position b.hint.position := by
  simp only [InlayHintItem.le, decide_eq_true_eq, Position.compare, Position.posLe]
  split_ifs <;> omega

/-- Contribution of one guarded provider call to the data list. -/
def providerCallData (ip : Nat × InlayHintsProvider) (r : Range) :
    List (List InlayHint × Nat) :=
  match ip.2.provideInlayHints r with
  | Except.ok (some hints) => if hints.length ≠ 0 then [(hints, ip.1)] else []
  | Except.ok none => []
  | Except.error _ => []

/-- Contribution of one guarded provider call to the error sink. -/
def providerCallErr (ip : Nat × InlayHintsProvider) (r : Range) : List String :=
  match ip.2.provideInlayHints r with
  | Except.ok _ => []
  | Except.error err => [err]

/-- A fold whose step appends to both components of a pair accumulates the
flat maps of the two per-element contributions. -/
theorem foldl_pair_append {α β γ : Type _} (f : α → List β) (g : α → List γ)
    (step : (List β × List γ) → α → (List β × List γ))
    (hstep : ∀ acc x, step acc x = (acc.1 ++ f x, acc.2 ++ g x)) :
    ∀ (xs : List α) (A : List β) (B : List γ),
      xs.foldl step (A, B) = (A ++ xs.flatMap f, B ++ xs.flatMap g)
  | [], A, B => by simp
  | x :: t, A, B => by
    rw [List.foldl_cons, hstep, foldl_pair_append f g step hstep t]
    simp [List.append_assoc]

/-- The collection fold equals the flat map of the per-call contributions,
in query order. -/
theorem collectData_eq (providers : List InlayHintsProvider) (ranges : List Range) :
    collectData providers ranges =
      ((providers.enum.reverse).flatMap (fun ip => ranges.flatMap (providerCallData ip)),
        (providers.enum.reverse).flatMap (fun ip => ranges.flatMap (providerCallErr ip))) := by
  unfold collectData
  have hinner : ∀ (ip : Nat × InlayHintsProvider) (acc : List (List InlayHint × Nat) × List String)
      (r : Range),
      (match ip.2.provideInlayHints r with
        | Except.ok (some hints) =>
            if hints.length ≠ 0 then (acc.1 ++ [(hints, ip.1)], acc.2) else acc
        | Except.ok none => acc
        | Except.error err => (acc.1, acc.2 ++ [err])) =
        (acc.1 ++ providerCallData ip r, acc.2 ++ providerCallErr ip r) := by
    intro ip acc r
    unfold providerCallData providerCallErr
    cases h : ip.2.provideInlayHints r with
    | ok o =>
      cases o with
      | some hints =>
        by_cases hlen : hints.length ≠ 0 <;> simp [hlen]
      | none => simp
    | error e => simp
  have houter : ∀ (acc : List (List InlayHint × Nat) × List String)
      (ip : Nat × InlayHintsProvider),
      ranges.foldl
          (fun acc r =>
            match ip.2.provideInlayHints r with
            | Except.ok (some hints) =>
                if hints.length ≠ 0 then (acc.1 ++ [(hints, ip.1)], acc.2) else acc
            | Except.ok none => acc
            | Except.error err => (acc.1, acc.2 ++ [err]))
          acc =
        (acc.1 ++ ranges.flatMap (providerCallData ip), acc.2 ++ ranges.flatMap (providerCallErr ip)) := by
    intro acc ip
    exact foldl_pair_append (providerCallData ip) (providerCallErr ip) _
      (fun acc r => hinner ip acc r) ranges acc.1 acc.2
  exact foldl_pair_append (fun ip => ranges.flatMap (providerCallData ip))
    (fun ip => ranges.flatMap (providerCallErr ip)) _ houter (providers.enum.reverse) [] []

/-- Flattening the data contribution of one call yields exactly the hints of
a successful non-nullish answer. -/
theorem providerCallData_flatten (ip : Nat × InlayHintsProvider) (r : Range) :
    (providerCallData ip r).flatMap Prod.fst =
      (match ip.2.provideInlayHints r with
        | Except.ok (some hints) => hints
        | Except.ok none => []
        | Except.error _ => []) := by
  unfold providerCallData
  cases h : ip.2.provideInlayHints r with
  | ok o =>
    cases o with
    | some hints =>
      by_cases hlen : hints.length ≠ 0
      · simp [hlen]
      · have : hints = [] := by
          have := (not_ne_iff).mp hlen
          exact List.length_eq_zero.mp this
        simp [hlen, this]
    | none => simp
  | error e => simp

/-- The hints of the built items are, in order, the flattened data. -/
theorem buildItems_map_hint (model : TextModel) (data : List (List InlayHint × Nat)) :
    (buildItems model data).map InlayHintItem.hint = data.flatMap Prod.fst := by
  unfold buildItems
  rw [List.map_flatMap]
  congr 1
  funext entry
  rw [List.map_map]
  show entry.1.map id = entry.1
  exact List.map_id entry.1

/-- The flattened collected data equals the spec-side characterisation of
the successful hints. -/
theorem collect_flatten_eq (providers : List InlayHintsProvider) (ranges : List Range) :
    ((collectData providers ranges).1).flatMap Prod.fst =
      specCollectedHints providers ranges := by
  rw [collectData_eq]
  show ((providers.enum.reverse).flatMap fun ip =>
      ranges.flatMap (providerCallData ip)).flatMap Prod.fst = _
  rw [List.flatMap_assoc]
  unfold specCollectedHints
  congr 1
  funext ip
  rw [List.flatMap_assoc]
  congr 1
  funext r
  exact providerCallData_flatten ip r

/-- C7: every hint returned by a successful provider call for some requested
range appears exactly once in the final item list (the map to hints is a
permutation of the flattened successful answers: no duplication, no drop),
failed calls contribute nothing to the items, and every rejection is
reported once to the error sink. -/
theorem collection_exactly_once_and_guarded (model : TextModel)
    (providers : List InlayHintsProvider) (ranges : List Range) :
    ((InlayHintsFragments.create model providers ranges).items.map InlayHintItem.hint).Perm
        (specCollectedHints providers ranges) ∧
    (InlayHintsFragments.create model providers ranges).errors =
      specCollectedErrors providers ranges := by
  constructor
  · have h1 : (InlayHintsFragments.create model providers ranges).items =
        (buildItems model (collectData providers ranges).1).mergeSort InlayHintItem.le := rfl
    rw [h1]
    have h2 := (List.mergeSort_perm (buildItems model (collectData providers ranges).1)
      InlayHintItem.le).map InlayHintItem.hint
    refine h2.trans ?_
    rw [buildItems_map_hint, collect_flatten_eq]
  · have h1 : (InlayHintsFragments.create model providers ranges).errors =
        (collectData providers ranges).2 := rfl
    rw [h1, collectData_eq]
    rfl

/-- C1 amended: the final item list is sorted non-decreasingly by hint
position, and hints at equal position keep the order in which they were
constructed, which is the reversed registry order: items from producers later
in the pre-reversal priority order are queried first and therefore precede
items from earlier producers inside a position-equal group. -/
theorem items_sorted_stable_tiebreak (model : TextModel)
    (providers : List InlayHintsProvider) (ranges : List Range) (a b : InlayHintItem)
    (hsub : [a, b].Sublist (buildItems model (collectData providers ranges).1))
    (heq : Position.compare a.hint.position b.hint.position = 0) :
    ((InlayHintsFragments.create model providers ranges).items.Pairwise
        (fun x y => Position.posLe x.hint.position y.hint.position)) ∧
    [a, b].Sublist (InlayHintsFragments.create model providers ranges).items := by
  have hitems : (InlayHintsFragments.create model providers ranges).items =
      (buildItems model (collectData providers ranges).1).mergeSort InlayHintItem.le := rfl
  constructor
  · rw [hitems]
    have hs := @List.sorted_mergeSort InlayHintItem InlayHintItem.le
      (fun x y z => InlayHintItem.le_trans x y z)
      (fun x y => InlayHintItem.le_total x y)
      (buildItems model (collectData providers ranges).1)
    exact hs.imp (fun hxy => (InlayHintItem.le_iff_posLe _ _).mp hxy)
  · rw [hitems]
    refine List.pair_sublist_mergeSort
      (fun x y z => InlayHintItem.le_trans x y z)
      (fun x y => InlayHintItem.le_total x y) ?_ hsub
    simp [InlayHintItem.le, heq]

/-- Model for the C1 scenario: an empty document. -/
def c1Model : TextModel :=
  { validatePosition := id
    getWordAtPosition := fun _ => none
    lineTokenEnds := fun _ => [] }

/-- Hint of the first-registered (highest-priority) provider. -/
def c1HintA : InlayHint :=
  { position := { lineNumber := 1, column := 1 }, label := "A", tooltip := none }

/-- Hint of the second-registered (lower-priority) provider at the same
position. -/
def c1HintB : InlayHint :=
  { position := { lineNumber := 1, column := 1 }, label := "B", tooltip := none }

/-- Registry of the C1 scenario, in priority order: provider 0 first. -/
def c1Providers : List InlayHintsProvider :=
  [{ provideInlayHints := fun _ => Except.ok (some [c1HintA]), hasChangeEvent := false },
   { provideInlayHints := fun _ => Except.ok (some [c1HintB]), hasChangeEvent := false }]

/-- The single requested range of the C1 scenario. -/
def c1Ranges : List Range :=
  [Range.make 1 1 1 1]

/-- Item built for the provider 0 hint. -/
def c1ItemA : InlayHintItem :=
  { hint := c1HintA, anchor := computeAnchor c1Model c1HintA, providerIndex := 0 }

/-- Item built for the provider 1 hint. -/
def c1ItemB : InlayHintItem :=
  { hint := c1HintB, anchor := computeAnchor c1Model c1HintB, providerIndex := 1 }

/-- C1 counterexample: with two providers contributing one hint each at the
same position, the final list places the item of provider 1 (later in the
pre-reversal priority order, queried first after the reversal) before the
item of provider 0, the opposite of the claimed tie order. -/
theorem c1_equal_position_tie_goes_to_later_provider :
    ((InlayHintsFragments.create c1Model c1Providers c1Ranges).items.map
        InlayHintItem.providerIndex) = [1, 0] ∧
    ((InlayHintsFragments.create c1Model c1Providers c1Ranges).items.map
        InlayHintItem.providerIndex) ≠ [0, 1] ∧
    ((InlayHintsFragments.create c1Model c1Providers c1Ranges).items.map
        (fun it => it.hint.position)) =
      [{ lineNumber := 1, column := 1 }, { lineNumber := 1, column := 1 }] := by
  have hbuild : buildItems c1Model (collectData c1Providers c1Ranges).1 =
      [c1ItemB, c1ItemA] := rfl
  have hsorted : [c1ItemB, c1ItemA].Pairwise (fun x y => InlayHintItem.le x y = true) := by
    simp [List.pairwise_cons]
    decide
  have hitems : (InlayHintsFragments.create c1Model c1Providers c1Ranges).items =
      [c1ItemB, c1ItemA] := by
    show (buildItems c1Model (collectData c1Providers c1Ranges).1).mergeSort InlayHintItem.le =
      [c1ItemB, c1ItemA]
    rw [hbuild]
    exact List.mergeSort_of_sorted hsorted
  rw [hitems]
  refine ⟨rfl, by decide, rfl⟩

/-- Witness for the C1 amended theorem at the concrete two-provider
scenario. -/
theorem c1_amended_witness :
    ((InlayHintsFragments.create c1Model c1Providers c1Ranges).items.Pairwise
        (fun x y => Position.posLe x.hint.position y.hint.position)) ∧
    [c1ItemB, c1ItemA].Sublist (InlayHintsFragments.create c1Model c1Providers c1Ranges).items := by
  apply items_sorted_stable_tiebreak c1Model c1Providers c1Ranges c1ItemB c1ItemA
  · have hbuild : buildItems c1Model (collectData c1Providers c1Ranges).1 =
        [c1ItemB, c1ItemA] := rfl
    rw [hbuild]
  · decide

/-- C9: for every provider that contributed a data entry and exposes the
change-notification capability, the constructor installs a forwarding
subscription, firing the underlying provider signal invokes the merged
emitter, and after dispose every forwarded subscription is torn down so
firing any provider signal leaves the merged emitter untouched. -/
theorem change_subscriptions_forward_until_dispose (model : TextModel)
    (providers : List InlayHintsProvider) (ranges : List Range) (p : Nat)
    (prov : InlayHintsProvider) (hs : List InlayHint)
    (hprov : providers[p]? = some prov) (hcap : prov.hasChangeEvent = true)
    (hdata : (hs, p) ∈ (collectData providers ranges).1) :
    p ∈ (InlayHintsFragments.create model providers ranges).subscriptions ∧
    (∀ n : Nat,
        (SignalState.fireProviderSignal
            { subscriptions := (InlayHintsFragments.create model providers ranges).subscriptions
              mergedFires := n } p).mergedFires > n) ∧
    (∀ q n : Nat,
        (SignalState.fireProviderSignal
            (SignalState.dispose
              { subscriptions := (InlayHintsFragments.create model providers ranges).subscriptions
                mergedFires := n }) q).mergedFires = n) := by
  have hmem : p ∈ (InlayHintsFragments.create model providers ranges).subscriptions := by
    show p ∈ (collectData providers ranges).1.filterMap (fun entry =>
      match providers[entry.2]? with
      | some prov => if prov.hasChangeEvent then some entry.2 else none
      | none => none)
    apply List.mem_filterMap.mpr
    refine ⟨(hs, p), hdata, ?_⟩
    simp [hprov, hcap]
  refine ⟨hmem, ?_, ?_⟩
  · intro n
    have hcount :
        0 < (InlayHintsFragments.create model providers ranges).subscriptions.count p :=
      List.count_pos_iff.mpr hmem
    simp only [SignalState.fireProviderSignal]
    omega
  · intro q n
    simp [SignalState.fireProviderSignal, SignalState.dispose]

/-- Model for the C9 witness. -/
def c9Model : TextModel :=
  { validatePosition := id
    getWordAtPosition := fun _ => none
    lineTokenEnds := fun _ => [] }

/-- Provider for the C9 witness: returns one hint and exposes the change
capability. -/
def c9Provider : InlayHintsProvider :=
  { provideInlayHints := fun _ => Except.ok (some [wHint]), hasChangeEvent := true }

/-- Registry for the C9 witness. -/
def c9Providers : List InlayHintsProvider :=
  [c9Provider]

/-- Requested ranges for the C9 witness. -/
def c9Ranges : List Range :=
  [Range.make 1 1 1 1]

/-- Witness for the C9 theorem at a concrete one-provider fragment set. -/
theorem c9_witness :
    0 ∈ (InlayHintsFragments.create c9Model c9Providers c9Ranges).subscriptions ∧
    (SignalState.fireProviderSignal
        { subscriptions := (InlayHintsFragments.create c9Model c9Providers c9Ranges).subscriptions
          mergedFires := 0 } 0).mergedFires > 0 ∧
    (SignalState.fireProviderSignal
        (SignalState.dispose
          { subscriptions := (InlayHintsFragments.create c9Model c9Providers c9Ranges).subscriptions
            mergedFires := 5 }) 0).mergedFires = 5 := by
  have h := change_subscriptions_forward_until_dispose c9Model c9Providers c9Ranges 0
    c9Provider [wHint] rfl rfl (by decide)
  exact ⟨h.1, h.2.1 0, h.2.2 0 5⟩

/-- Inductive invariant of the resolve machine: the in-flight handle tracks
exactly the pending operations, the invocation counter counts the started
operations, every stored answer came from the producer, a settled operation
implies the resolved flag, and under an always-successful producer at most
one operation is ever started. -/
structure ResolveInv (producer : Nat → Except String (Option InlayHint))
    (s : MachineState) : Prop where
  pendingCurrent : ∀ (o : Nat) (r : OpRecord),
    s.ops[o]? = some r → r.settled = false → s.currentResolve = some o
  currentPending : ∀ o : Nat,
    s.currentResolve = some o → ∃ r : OpRecord, s.ops[o]? = some r ∧ r.settled = false
  invocEq : s.invocations = s.ops.length
  opResults : ∀ (o : Nat) (r : OpRecord), s.ops[o]? = some r → ∃ k : Nat, r.result = producer k
  settledResolved : ∀ (o : Nat) (r : OpRecord),
    s.ops[o]? = some r → r.settled = true → s.core.isResolved = true
  resolvedNonempty : s.core.isResolved = true → 1 ≤ s.ops.length
  startedNonempty : ∀ (i : Nat) (pc : CallerPC),
    s.callers[i]? = some pc → pc ≠ CallerPC.entry → 1 ≤ s.ops.length
  opsLe : s.ops.length ≤ 1

/-- The invariant holds in the initial state. -/
theorem resolveInv_init (producer : Nat → Except String (Option InlayHint))
    (hint : InlayHint) (n : Nat) : ResolveInv producer (initState hint n) := by
  constructor
  · intro o r hr _
    simp [initState] at hr
  · intro o ho
    simp [initState] at ho
  · rfl
  · intro o r hr
    simp [initState] at hr
  · intro o r hr _
    simp [initState] at hr
  · intro hres
    simp [initState] at hres
  · intro i pc hpc hne
    rw [show (initState hint n).callers = List.replicate n CallerPC.entry from rfl] at hpc
    rw [List.getElem?_replicate] at hpc
    split at hpc
    · injection hpc with hpc
      exact absurd hpc.symm hne
    · cases hpc
  · simp [initState]

/-- The invariant is preserved by every machine step, provided the producer
always answers successfully. -/
theorem resolveInv_step (producer : Nat → Except String (Option InlayHint))
    (hok : ∀ n, ∃ v, producer n = Except.ok v)
    {s t : MachineState} (hs : ResolveInv producer s)
    (hstep : Step producer true s t) : ResolveInv producer t := by
  cases hstep with
  | entry i s hi =>
    cases hcur : s.currentResolve with
    | some o =>
      have happ : applyEntry producer true i s =
          { s with callers := s.callers.set i (CallerPC.waitingShared o) } := by
        simp [applyEntry, entryAction, hcur]
      rw [happ]
      obtain ⟨r, hr, _⟩ := hs.currentPending o hcur
      obtain ⟨holt, _⟩ := List.getElem?_eq_some_iff.mp hr
      exact
        { pendingCurrent := hs.pendingCurrent
          currentPending := hs.currentPending
          invocEq := hs.invocEq
          opResults := hs.opResults
          settledResolved := hs.settledResolved
          resolvedNonempty := hs.resolvedNonempty
          startedNonempty := fun _ _ _ _ => show 1 ≤ s.ops.length by omega
          opsLe := hs.opsLe }
    | none =>
      cases hres : s.core.isResolved with
      | true =>
        have happ : applyEntry producer true i s =
            { s with callers := s.callers.set i CallerPC.done } := by
          simp [applyEntry, entryAction, hcur, hres]
        rw [happ]
        have hlen := hs.resolvedNonempty hres
        exact
          { pendingCurrent := hs.pendingCurrent
            currentPending := hs.currentPending
            invocEq := hs.invocEq
            opResults := hs.opResults
            settledResolved := hs.settledResolved
            resolvedNonempty := hs.resolvedNonempty
            startedNonempty := fun _ _ _ _ => hlen
            opsLe := hs.opsLe }
      | false =>
        have happ : applyEntry producer true i s =
            { s with
              ops := s.ops ++ [{ result := producer s.invocations, settled := false }]
              invocations := s.invocations + 1
              currentResolve := some s.ops.length
              callers := s.callers.set i (CallerPC.waitingOwn s.ops.length) } := by
          simp [applyEntry, entryAction, hcur, hres]
        rw [happ]
        have hops : s.ops = [] := by
          cases hops : s.ops with
          | nil => rfl
          | cons r rest =>
            exfalso
            have h0 : s.ops[0]? = some r := by rw [hops]; simp
            cases hsettled : r.settled with
            | false =>
              have hc := hs.pendingCurrent 0 r h0 hsettled
              rw [hcur] at hc
              cases hc
            | true =>
              have hc := hs.settledResolved 0 r h0 hsettled
              rw [hres] at hc
              cases hc
        constructor
        · intro o r hr _
          rw [hops] at hr ⊢
          cases o with
          | zero =>
            simp
          | succ o2 =>
            simp at hr
        · intro o ho
          rw [hops] at ho ⊢
          injection ho with ho
          simp at ho
          subst ho
          refine ⟨{ result := producer s.invocations, settled := false }, ?_, rfl⟩
          simp
        · rw [List.length_append, hs.invocEq]
          simp
        · intro o r hr
          rw [hops] at hr
          cases o with
          | zero =>
            simp at hr
            exact ⟨s.invocations, by rw [← hr]⟩
          | succ o2 =>
            simp at hr
        · intro o r hr hset
          rw [hops] at hr
          cases o with
          | zero =>
            simp at hr
            rw [← hr] at hset
            simp at hset
          | succ o2 =>
            simp at hr
        · intro _
          rw [hops]
          simp
        · intro _ _ _ _
          rw [hops]
          simp
        · rw [hops]
          simp
  | resumeSharedCancelled i o s hi hset =>
    cases hmap : s.ops[o]? with
    | none =>
      rw [hmap] at hset
      cases hset
    | some r =>
      obtain ⟨holt, _⟩ := List.getElem?_eq_some_iff.mp hmap
      exact
        { pendingCurrent := hs.pendingCurrent
          currentPending := hs.currentPending
          invocEq := hs.invocEq
          opResults := hs.opResults
          settledResolved := hs.settledResolved
          resolvedNonempty := hs.resolvedNonempty
          startedNonempty := fun _ _ _ _ => show 1 ≤ s.ops.length by omega
          opsLe := hs.opsLe }
  | resumeSharedRetry i o s hi hset =>
    cases hmap : s.ops[o]? with
    | none =>
      rw [hmap] at hset
      cases hset
    | some r =>
      obtain ⟨holt, _⟩ := List.getElem?_eq_some_iff.mp hmap
      exact
        { pendingCurrent := hs.pendingCurrent
          currentPending := hs.currentPending
          invocEq := hs.invocEq
          opResults := hs.opResults
          settledResolved := hs.settledResolved
          resolvedNonempty := hs.resolvedNonempty
          startedNonempty := fun _ _ _ _ => show 1 ≤ s.ops.length by omega
          opsLe := hs.opsLe }
  | resumeOwn i o s hi hset =>
    cases hmap : s.ops[o]? with
    | none =>
      rw [hmap] at hset
      cases hset
    | some r =>
      obtain ⟨holt, _⟩ := List.getElem?_eq_some_iff.mp hmap
      exact
        { pendingCurrent := hs.pendingCurrent
          currentPending := hs.currentPending
          invocEq := hs.invocEq
          opResults := hs.opResults
          settledResolved := hs.settledResolved
          resolvedNonempty := hs.resolvedNonempty
          startedNonempty := fun _ _ _ _ => show 1 ≤ s.ops.length by omega
          opsLe := hs.opsLe }
  | settle o s hpend =>
    obtain ⟨r, hr, hrs⟩ : ∃ r, s.ops[o]? = some r ∧ r.settled = false := by
      cases hmap : s.ops[o]? with
      | none =>
        rw [hmap] at hpend
        cases hpend
      | some r =>
        rw [hmap] at hpend
        exact ⟨r, rfl, by simpa using hpend⟩
    obtain ⟨holt, _⟩ := List.getElem?_eq_some_iff.mp hr
    have happ : applySettle o s =
        { s with
          core := doResolve r.result s.core
          currentResolve := none
          ops := s.ops.set o { r with settled := true } } := by
      simp [applySettle, hr]
    rw [happ]
    obtain ⟨k, hk⟩ := hs.opResults o r hr
    obtain ⟨v, hv⟩ := hok k
    have hcoreRes : (doResolve r.result s.core).isResolved = true := by
      rw [hk, hv]
      rfl
    constructor
    · intro o2 r2 h2 hset2
      exfalso
      by_cases heq : o = o2
      · subst heq
        rw [List.getElem?_set_self holt] at h2
        injection h2 with h2
        rw [← h2] at hset2
        simp at hset2
      · rw [List.getElem?_set_ne heq] at h2
        have hc2 := hs.pendingCurrent o2 r2 h2 hset2
        have hc1 := hs.pendingCurrent o r hr hrs
        rw [hc1] at hc2
        injection hc2 with hc2
        exact heq hc2
    · intro o2 ho2
      cases ho2
    · rw [List.length_set]
      exact hs.invocEq
    · intro o2 r2 h2
      by_cases heq : o = o2
      · subst heq
        rw [List.getElem?_set_self holt] at h2
        injection h2 with h2
        rw [← h2]
        exact ⟨k, hk⟩
      · rw [List.getElem?_set_ne heq] at h2
        exact hs.opResults o2 r2 h2
    · intro _ _ _ _
      exact hcoreRes
    · intro _
      rw [List.length_set]
      omega
    · intro j pc hj hne
      rw [List.length_set]
      omega
    · rw [List.length_set]
      exact hs.opsLe

/-- Every state reachable from the initial state satisfies the invariant. -/
theorem resolveInv_reachable (producer : Nat → Except String (Option InlayHint))
    (hok : ∀ n, ∃ v, producer n = Except.ok v) (hint : InlayHint) (n : Nat)
    {s : MachineState}
    (hreach : Reachable producer true (initState hint n) s) : ResolveInv producer s := by
  induction hreach with
  | refl => exact resolveInv_init producer hint n
  | tail hr hstep ih => exact resolveInv_step producer hok ih hstep

/-- C6: in every reachable state of two concurrent resolve callers on one
unresolved item with an always-successful producer, at most one operation is
pending at any time, a settled operation is never the in-flight handle (the
handle is cleared on settlement), and when both callers have completed the
producer was invoked exactly once. -/
theorem resolve_dedup_single_invocation (hint : InlayHint)
    (producer : Nat → Except String (Option InlayHint))
    (hok : ∀ n, ∃ v, producer n = Except.ok v) (s : MachineState)
    (hreach : Reachable producer true (initState hint 2) s) :
    (∀ (o1 o2 : Nat) (r1 r2 : OpRecord), s.ops[o1]? = some r1 → s.ops[o2]? = some r2 →
        r1.settled = false → r2.settled = false → o1 = o2) ∧
    (∀ o r, s.ops[o]? = some r → r.settled = true → s.currentResolve ≠ some o) ∧
    (s.callers = [CallerPC.done, CallerPC.done] → s.invocations = 1) := by
  have hinv := resolveInv_reachable producer hok hint 2 hreach
  refine ⟨?_, ?_, ?_⟩
  · intro o1 o2 r1 r2 h1 h2 hs1 hs2
    have c1 := hinv.pendingCurrent o1 r1 h1 hs1
    have c2 := hinv.pendingCurrent o2 r2 h2 hs2
    rw [c1] at c2
    exact Option.some.inj c2
  · intro o r hr hset hcur
    obtain ⟨r2, hr2, hs2⟩ := hinv.currentPending o hcur
    rw [hr] at hr2
    injection hr2 with hr2
    rw [← hr2] at hs2
    rw [hset] at hs2
    cases hs2
  · intro hdone
    have h0 : s.callers[0]? = some CallerPC.done := by rw [hdone]; rfl
    have h1 := hinv.startedNonempty 0 CallerPC.done h0 (by decide)
    have h2 := hinv.opsLe
    have h3 := hinv.invocEq
    omega

/-- Producer for the C6 witness trace: always succeeds with no replacement. -/
def c6Producer : Nat → Except String (Option InlayHint) :=
  fun _ => Except.ok none

/-- Witness trace for C6, states after each scheduled step: caller 0 starts
the operation, caller 1 finds it in flight and waits, the operation settles,
caller 0 completes, caller 1 retries, sees the item resolved and completes. -/
def c6s0 : MachineState := initState wHint 2

/-- State after caller 0 runs from entry and starts operation 0. -/
def c6s1 : MachineState := applyEntry c6Producer true 0 c6s0

/-- State after caller 1 runs from entry and waits on operation 0. -/
def c6s2 : MachineState := applyEntry c6Producer true 1 c6s1

/-- State after operation 0 settles. -/
def c6s3 : MachineState := applySettle 0 c6s2

/-- State after caller 0 resumes from its own wait and completes. -/
def c6s4 : MachineState := { c6s3 with callers := c6s3.callers.set 0 CallerPC.done }

/-- State after caller 1 resumes from the shared wait, token not cancelled,
and retries from entry. -/
def c6s5 : MachineState := { c6s4 with callers := c6s4.callers.set 1 CallerPC.entry }

/-- State after caller 1 re-enters, finds the item resolved, and completes. -/
def c6s6 : MachineState := applyEntry c6Producer true 1 c6s5

/-- Witness for the C6 theorem: at the end of the concrete trace both callers
are done and the producer was invoked exactly once. -/
theorem c6_witness : c6s6.invocations = 1 := by
  have hreach : Reachable c6Producer true (initState wHint 2) c6s6 :=
    Reachable.tail
      (Reachable.tail
        (Reachable.tail
          (Reachable.tail
            (Reachable.tail
              (Reachable.tail Reachable.refl
                (Step.entry 0 c6s0 (by decide)))
              (Step.entry 1 c6s1 (by decide)))
            (Step.settle 0 c6s2 (by decide)))
          (Step.resumeOwn 0 0 c6s3 (by decide) (by decide)))
        (Step.resumeSharedRetry 1 0 c6s4 (by decide) (by decide)))
      (Step.entry 1 c6s5 (by decide))
  exact (resolve_dedup_single_invocation wHint c6Producer (fun _ => ⟨none, rfl⟩) c6s6
    hreach).2.2 (by decide)

/-- Invariant of the copy resolve run: the slots of the copy never change
(the handle stays set to the settled operation and the flag stays false), no
producer invocation ever starts, and the run is either at entry, waiting on
the settled shared operation, or done because the token was observed
cancelled at some earlier resumption. -/
theorem copyRun_invariant (token : Nat → Bool) :
    ∀ n : Nat, (copyRun token n).slots = origInFlight ∧
      (copyRun token n).invocations = 0 ∧
      ((copyRun token n).pc = CallerPC.entry ∨
        (copyRun token n).pc = CallerPC.waitingShared 0 ∨
        ((copyRun token n).pc = CallerPC.done ∧ ∃ t : Nat, t < n ∧ token t = true))
  | 0 => ⟨rfl, rfl, Or.inl rfl⟩
  | n + 1 => by
    obtain ⟨hslots, hinvoc, hpc⟩ := copyRun_invariant token n
    have hrun : copyRun token (n + 1) = copyStep token n (copyRun token n) := rfl
    rcases hpc with hpcE | hpcW | ⟨hpcD, t, ht, htt⟩
    · have hstep : copyStep token n (copyRun token n) =
          { slots := origInFlight, pc := CallerPC.waitingShared 0
            invocations := (copyRun token n).invocations } := by
        rw [copyStep, hpcE, hslots]
        rfl
      rw [hrun, hstep]
      exact ⟨rfl, hinvoc, Or.inr (Or.inl rfl)⟩
    · cases htok : token n with
      | true =>
        have hstep : copyStep token n (copyRun token n) =
            { slots := origInFlight, pc := CallerPC.done
              invocations := (copyRun token n).invocations } := by
          rw [copyStep, hpcW, htok, hslots]
          rfl
        rw [hrun, hstep]
        exact ⟨rfl, hinvoc, Or.inr (Or.inr ⟨rfl, n, Nat.lt_succ_self n, htok⟩)⟩
      | false =>
        have hstep : copyStep token n (copyRun token n) =
            { slots := origInFlight, pc := CallerPC.entry
              invocations := (copyRun token n).invocations } := by
          rw [copyStep, hpcW, htok, hslots]
          rfl
        rw [hrun, hstep]
        exact ⟨rfl, hinvoc, Or.inl rfl⟩
    · have hstep : copyStep token n (copyRun token n) = copyRun token n := by
        rw [copyStep, hpcD]
      rw [hrun, hstep]
      exact ⟨hslots, hinvoc, Or.inr (Or.inr ⟨hpcD, t, Nat.lt_succ_of_lt ht, htt⟩)⟩

/-- C10: settlement clears the in-flight handle only on the item that started
the operation, never on the with() copy; with a never-cancelled token, every
resolve call on the copy keeps awaiting the already settled handle and
retrying, never completing and never invoking the producer; and the run can
only complete once the token was observed cancelled at some resumption. -/
theorem with_copy_resolve_never_terminates (token : Nat → Bool) (n : Nat) :
    (settleOriginal origInFlight (withDelta origInFlight) true).1.currentResolve = none ∧
    (settleOriginal origInFlight (withDelta origInFlight) true).2.currentResolve = some 0 ∧
    ((∀ t : Nat, token t = false) →
        (copyRun token n).pc ≠ CallerPC.done ∧ (copyRun token n).invocations = 0) ∧
    ((copyRun token n).pc = CallerPC.done → ∃ t : Nat, t < n ∧ token t = true) := by
  obtain ⟨hslots, hinvoc, hpc⟩ := copyRun_invariant token n
  refine ⟨rfl, rfl, ?_, ?_⟩
  · intro htok
    refine ⟨?_, hinvoc⟩
    rcases hpc with hpcE | hpcW | ⟨hpcD, t, _, htt⟩
    · rw [hpcE]
      intro h
      cases h
    · rw [hpcW]
      intro h
      cases h
    · rw [htok t] at htt
      cases htt
  · intro hdone
    rcases hpc with hpcE | hpcW | ⟨_, t, ht, htt⟩
    · rw [hdone] at hpcE
      cases hpcE
    · rw [hdone] at hpcW
      cases hpcW
    · exact ⟨t, ht, htt⟩

/-- Witness for the C10 theorem: with a never-cancelled token, after four
steps the run on the copy is still not done and has invoked the producer
zero times, while the original handle was cleared and the copy handle kept. -/
theorem c10_witness :
    (settleOriginal origInFlight (withDelta origInFlight) true).1.currentResolve = none ∧
    (settleOriginal origInFlight (withDelta origInFlight) true).2.currentResolve = some 0 ∧
    (copyRun (fun _ => false) 4).pc ≠ CallerPC.done ∧
    (copyRun (fun _ => false) 4).invocations = 0 := by
  have h := with_copy_resolve_never_terminates (fun _ => false) 4
  exact ⟨h.1, h.2.1, (h.2.2.1 (fun _ => rfl)).1, (h.2.2.1 (fun _ => rfl)).2⟩

end InlayHints
